import Mathlib

/-!
A verification development for the liquidation ingestion-and-aggregation
pipeline of the repository (backend/services/ws_liq.py and
backend/routers/liq.py).

The Python code is shallowly embedded: JSON values become an inductive
type, float arithmetic is modelled exactly over `ℚ`, machine integers
over `ℤ`, and every Python operation that can raise (dict access on a
non-dict, `float()` on a malformed string, list indexing) is modelled
with `Option`/`Except`, with Python's negative-index list semantics made
explicit.  `_BUFS` / `BUF` deques with `maxlen` become lists with an
explicit drop-from-the-left append.
-/

/-- A JSON value, as produced by `json.loads`. -/
inductive JVal where
  | jnull : JVal
  | jbool : Bool → JVal
  | jnum : ℚ → JVal
  | jstr : String → JVal
  | jarr : List JVal → JVal
  | jobj : List (String × JVal) → JVal

/-- Python truthiness of a JSON value (`None`, `False`, `0`, `""`, `[]`,
`{}` are falsy). -/
def truthy : JVal → Bool
  | .jnull => false
  | .jbool b => b
  | .jnum q => q != 0
  | .jstr s => s != ("")
  | .jarr xs => !xs.isEmpty
  | .jobj kvs => !kvs.isEmpty

/-- Python `x != "0"` for a JSON value `x`: a string compares by content,
any non-string value is unequal to the string `"0"`. -/
def neStrZero : JVal → Bool
  | .jstr s => s != ("0")
  | _ => true

/-- Association-list field lookup with a default, modelling `dict.get`. -/
def getField : List (String × JVal) → String → JVal → JVal
  | [], _, d => d
  | (k', v) :: rest, k, d => if k' = k then v else getField rest k d

/-- Python `v.get(k, d)`: succeeds only when `v` is a dict, otherwise the
attribute access raises. -/
def jget (v : JVal) (k : String) (d : JVal) : Except Unit JVal :=
  match v with
  | .jobj kvs => .ok (getField kvs k d)
  | _ => .error ()

/-- `True` when the value may be used as a Python dict key (lists and
dicts are unhashable and raise `TypeError`). -/
def isHashable : JVal → Bool
  | .jarr _ => false
  | .jobj _ => false
  | _ => true

/-- All characters are decimal digits. -/
def allDigits (cs : List Char) : Bool := cs.all (fun c => c.isDigit)

/-- Numeric value of a digit string. -/
def digitsToNat (cs : List Char) : ℕ :=
  cs.foldl (fun a c => a * 10 + (c.toNat - 48)) 0

/-- Parse an unsigned decimal numeral, with an optional single decimal
point, into an exact rational; `none` models `float()` raising
`ValueError`. -/
def parseUnsigned (cs : List Char) : Option ℚ :=
  let intPart := cs.takeWhile (fun c => c ≠ '.')
  match cs.dropWhile (fun c => c ≠ '.') with
  | [] =>
      if intPart ≠ [] ∧ allDigits intPart then some (digitsToNat intPart) else none
  | '.' :: frac =>
      if allDigits intPart ∧ allDigits frac ∧ (intPart ≠ [] ∨ frac ≠ []) then
        some ((digitsToNat intPart : ℚ) + (digitsToNat frac : ℚ) / (10 ^ frac.length))
      else none
  | _ => none

/-- Python `float(s)` on a string (exact-rational model). -/
def parseFloat (s : String) : Option ℚ :=
  match s.toList with
  | '-' :: rest => (parseUnsigned rest).map (fun q => -q)
  | '+' :: rest => parseUnsigned rest
  | cs => parseUnsigned cs

/-- Python `int(s)` on a string: an optional sign followed by digits. -/
def parseIntStr (s : String) : Option ℤ :=
  match s.toList with
  | '-' :: rest =>
      if rest ≠ [] ∧ allDigits rest then some (-(digitsToNat rest : ℤ)) else none
  | '+' :: rest =>
      if rest ≠ [] ∧ allDigits rest then some (digitsToNat rest) else none
  | cs => if cs ≠ [] ∧ allDigits cs then some (digitsToNat cs) else none

/-- Truncation toward zero, Python `int()` applied to a float. -/
def truncQ (q : ℚ) : ℤ := if 0 ≤ q then ⌊q⌋ else -⌊-q⌋

/-- Python `float(v)` on a JSON value. -/
def pyFloat : JVal → Except Unit ℚ
  | .jnum q => .ok q
  | .jbool b => .ok (if b then 1 else 0)
  | .jstr s =>
      match parseFloat s with
      | some q => .ok q
      | none => .error ()
  | _ => .error ()

/-- Python `int(v)` on a JSON value. -/
def pyInt : JVal → Except Unit ℤ
  | .jnum q => .ok (truncQ q)
  | .jbool b => .ok (if b then 1 else 0)
  | .jstr s =>
      match parseIntStr s with
      | some n => .ok n
      | none => .error ()
  | _ => .error ()

/-- Normalization of a Python list index: a negative index counts from
the end. -/
def pyNorm (n : ℕ) (i : ℤ) : ℤ := if i < 0 then i + n else i

/-- Python list indexing: a negative index counts from the end, an index
out of range raises `IndexError` (modelled by `none`). -/
def pyIdx (n : ℕ) (i : ℤ) : Option ℕ :=
  if 0 ≤ pyNorm n i ∧ pyNorm n i < (n : ℤ) then some (pyNorm n i).toNat else none

/-- Python `str.upper()` (ASCII model), used to normalize symbols. -/
def pyUpper (s : String) : String := ⟨s.data.map Char.toUpper⟩

/-- One stored liquidation print of the service buffer `_BUFS[sym]`:
the tuple `(ts_ms, price, notional_usd, side)` of ws_liq.py. -/
structure WsEvent where
  ts : ℤ
  price : ℚ
  notional : ℚ
  side : JVal

/-- One stored row of the router ring buffer `BUF`:
`(ts_ms, symbol, side, price, qty, notional)` of routers/liq.py. -/
structure RtEvent where
  ts : ℤ
  sym : String
  side : JVal
  price : ℚ
  qty : ℚ
  notional : ℚ

/-- `deque(maxlen := m)` append: add on the right and, when the `m`
bound is exceeded, drop from the left (the oldest end) down to `m`
entries. -/
def dequeAppend (m : ℕ) (buf : List α) (e : α) : List α :=
  let b := buf ++ [e]
  if m < b.length then b.drop (b.length - m) else b

/-- The `maxlen` of each per-symbol deque of `_BUFS` in ws_liq.py. -/
def WS_MAXLEN : ℕ := 20000

/-- The `maxlen` of the ring buffer `BUF` in routers/liq.py. -/
def RT_MAXLEN : ℕ := 200000

/-- Decode one element of a `!forceOrder@arr` delivery, following the
body of the `for ev in events` loop of `_consume_force_orders` in
ws_liq.py: the result is `none` for a filtered message (`continue`),
`some (sym, event)` for an accepted print, and `Except.error` when the
Python code would raise (non-dict attribute access, unparsable
`float`/`int` string, unhashable buffer key). -/
def wsDecodeOne (ev : JVal) (now : ℤ) : Except Unit (Option (JVal × WsEvent)) := do
  let o0 ← jget (if truthy ev then ev else .jobj []) ("o") .jnull
  let o := if truthy o0 then o0 else .jobj []
  let sym ← jget o ("s") .jnull
  if truthy sym then
    let ap ← jget o ("ap") (.jstr ("0"))
    let p ← jget o ("p") (.jstr ("0"))
    let price ← if truthy ap && neStrZero ap then pyFloat ap
                else pyFloat (if truthy p then p else .jnum 0)
    let q ← jget o ("q") (.jstr ("0"))
    let qty ← pyFloat (if truthy q then q else .jnum 0)
    let side ← jget o ("S") (.jstr ("UNKNOWN"))
    let tv ← jget o ("T") .jnull
    let ts ← if truthy tv then pyInt tv
             else do
               let ev2 ← jget ev ("E") .jnull
               if truthy ev2 then pyInt ev2 else .ok now
    let notional := price * qty
    if price ≤ 0 ∨ qty ≤ 0 then
      return none
    else
      if isHashable sym then
        return some (sym, ⟨ts, price, notional, side⟩)
      else
        .error ()
  else
    return none

/-- Decode a batch of events in order.  The boolean records whether the
loop raised; prints decoded before the raising element were already
appended by the Python loop and are kept. -/
def wsDecodeList (evs : List JVal) (now : ℤ) : List (JVal × WsEvent) × Bool :=
  match evs with
  | [] => ([], false)
  | ev :: rest =>
    match wsDecodeOne ev now with
    | .error _ => ([], true)
    | .ok none => wsDecodeList rest now
    | .ok (some ke) =>
      let (es, r) := wsDecodeList rest now
      (ke :: es, r)

/-- Process one raw websocket message of the service consumer:
`json.loads` (a `none` argument models a string that is not valid JSON,
which raises), then `data if isinstance(data, list) else [data]`, then
the decode loop.  Returns the accepted prints, in order, and whether the
receive loop raised (aborting the connection). -/
def wsStepMsg (raw : Option JVal) (now : ℤ) : List (JVal × WsEvent) × Bool :=
  match raw with
  | none => ([], true)
  | some d => wsDecodeList (match d with | .jarr xs => xs | v => [v]) now

/-- The service store `_BUFS`: a `defaultdict` of per-key deques with
`maxlen = 20000`, keyed by the raw symbol value. -/
abbrev Store := List (JVal × List WsEvent)

/-- Equality of Python dict keys, for the hashable scalars that can
reach `_BUFS[sym]`. -/
def keyEq : JVal → JVal → Bool
  | .jnull, .jnull => true
  | .jbool a, .jbool b => a == b
  | .jnum a, .jnum b => a == b
  | .jstr a, .jstr b => a == b
  | _, _ => false

/-- `_BUFS[sym].append(e)` including the `defaultdict` insertion of a
fresh deque for an unseen key. -/
def storeApp (st : Store) (k : JVal) (e : WsEvent) : Store :=
  match st with
  | [] => [(k, dequeAppend WS_MAXLEN [] e)]
  | (k', buf) :: rest =>
    if keyEq k' k then (k', dequeAppend WS_MAXLEN buf e) :: rest
    else (k', buf) :: storeApp rest k e

/-- `sym in _BUFS` / `_BUFS[sym]` read without insertion. -/
def storeGet : Store → JVal → Option (List WsEvent)
  | [], _ => none
  | (k', buf) :: rest, k => if keyEq k' k then some buf else storeGet rest k

/-- Append every print decoded from one message into `_BUFS`. -/
def wsConsumeMsg (st : Store) (raw : Option JVal) (now : ℤ) : Store :=
  ((wsStepMsg raw now).1).foldl (fun s ke => storeApp s ke.1 ke.2) st

/-- The service receive loop over a list of raw messages: a raising
message only aborts the current connection (reconnect with backoff), it
never unwinds the buffer. -/
def wsConsume (msgs : List (Option JVal)) (now : ℤ) (st : Store) : Store :=
  msgs.foldl (fun s m => wsConsumeMsg s m now) st

/-- Decode one raw message of the router consumer `liq_consumer` in
routers/liq.py, before its blanket `except Exception: pass`:
`Except.error` marks the paths on which the Python body raises. -/
def rtDecodeE (raw : Option JVal) (now : ℤ) : Except Unit (Option RtEvent) := do
  match raw with
  | none => .error ()
  | some d =>
    let dd ← jget d ("data") .jnull
    let data := if truthy dd then dd else .jobj []
    let o ← jget data ("o") (.jobj [])
    let s ← jget o ("s") .jnull
    let side ← jget o ("S") .jnull
    let p0 ← jget o ("p") .jnull
    let p ← pyFloat (if truthy p0 then p0 else .jnum 0)
    let q0 ← jget o ("q") .jnull
    let q ← pyFloat (if truthy q0 then q0 else .jnum 0)
    let t0 ← jget o ("T") .jnull
    let t ← if truthy t0 then pyInt t0 else .ok now
    if truthy s ∧ 0 < p ∧ 0 < q then
      match s with
      | .jstr ss => return some ⟨t, pyUpper ss, side, p, q, p * q⟩
      | _ => .error ()
    else
      return none

/-- The router per-message decode with its `try/except Exception: pass`:
it never raises; every failure yields zero events. -/
def rtDecode (raw : Option JVal) (now : ℤ) : Option RtEvent :=
  match rtDecodeE raw now with
  | .ok r => r
  | .error _ => none

/-- The router retention setting `LIQ_BUFFER_SECS` (default 3600),
"keep last hour in memory". -/
def BUFFER_SECS : ℤ := 3600

/-- The router receive loop over a list of raw messages, appending into
the global ring buffer `BUF = deque(maxlen=200000)`. -/
def rtConsume (msgs : List (Option JVal)) (now : ℤ) (buf : List RtEvent) : List RtEvent :=
  msgs.foldl (fun b m =>
    match rtDecode m now with
    | none => b
    | some e => dequeAppend RT_MAXLEN b e) buf

/-- The window slice of `get_heatmap`:
`[it for it in _BUFS[symbol] if it[0] >= start_ms]` — only the lower
bound is checked, and the arrival order of the deque is kept. -/
def querySlice (buf : List WsEvent) (startMs : ℤ) : List WsEvent :=
  buf.filter (fun it => startMs ≤ it.ts)

/-- `min(p for _, p, _, _ in items)` (defined as 0 on the empty list,
which the code never reaches). -/
def minPrice : List WsEvent → ℚ
  | [] => 0
  | e :: es => es.foldl (fun a x => min a x.price) e.price

/-- `max(p for _, p, _, _ in items)`. -/
def maxPrice : List WsEvent → ℚ
  | [] => 0
  | e :: es => es.foldl (fun a x => max a x.price) e.price

/-- Time-bucket index of `get_heatmap`:
`min(max((ts - start_ms) // 60_000, 0), minutes - 1)` with Python floor
division. -/
def yiOf (minutes startMs ts : ℤ) : ℤ :=
  min (max (Int.fdiv (ts - startMs) 60000) 0) (minutes - 1)

/-- Price-bucket index of `get_heatmap`:
`xi = int((price - lo) // bin_w)` then the two-sided clamp
`if xi < 0: xi = 0 elif xi >= bins: xi = bins - 1`. -/
def xiOf (lo binW : ℚ) (bins : ℤ) (price : ℚ) : ℤ :=
  if ⌊(price - lo) / binW⌋ < 0 then 0
  else if bins ≤ ⌊(price - lo) / binW⌋ then bins - 1
  else ⌊(price - lo) / binW⌋

/-- `z[yi][xi] += notional` with Python list-index semantics; `none`
models the `IndexError`. -/
def bump (z : List (List ℚ)) (yi xi : ℤ) (v : ℚ) : Option (List (List ℚ)) :=
  (pyIdx z.length yi).bind (fun j =>
    (pyIdx (z.getD j []).length xi).map (fun i =>
      z.set j ((z.getD j []).set i ((z.getD j []).getD i 0 + v))))

/-- The fill loop of `get_heatmap` over the window slice. -/
def fillZ (z : List (List ℚ)) (items : List WsEvent)
    (startMs minutes bins : ℤ) (lo binW : ℚ) : Except Unit (List (List ℚ)) :=
  match items with
  | [] => .ok z
  | e :: rest =>
    match bump z (yiOf minutes startMs e.ts) (xiOf lo binW bins e.price) e.notional with
    | none => .error ()
    | some z2 => fillZ z2 rest startMs minutes bins lo binW

/-- The result shape `{"x": ..., "y": ..., "z": ...}` of the heatmap. -/
structure Grid where
  x : List ℚ
  y : List ℤ
  z : List (List ℚ)
deriving DecidableEq

/-- The widened lower edge: `pad = (hi - lo) * 0.01; lo -= pad`. -/
def loPad (lo hi : ℚ) : ℚ := lo - (hi - lo) * (1 / 100)

/-- The widened upper edge: `hi += pad`. -/
def hiPad (lo hi : ℚ) : ℚ := hi + (hi - lo) * (1 / 100)

/-- `bin_w = (hi - lo) / max(1, bins)` on the widened edges. -/
def binWOf (lo hi : ℚ) (bins : ℤ) : ℚ :=
  (hiPad lo hi - loPad lo hi) / ((max 1 bins : ℤ) : ℚ)

/-- `x_bins = [lo + i * bin_w for i in range(bins)]`. -/
def xAxis (lo hi : ℚ) (bins : ℤ) : List ℚ :=
  (List.range bins.toNat).map (fun i => loPad lo hi + (i : ℚ) * binWOf lo hi bins)

/-- `y_ms = [start_ms + i * 60_000 for i in range(minutes)]`. -/
def yAxis (startMs minutes : ℤ) : List ℤ :=
  (List.range minutes.toNat).map (fun i => startMs + (i : ℤ) * 60000)

/-- `z = [[0.0 for _ in range(bins)] for _ in y_slots]`. -/
def zInit (minutes bins : ℤ) : List (List ℚ) :=
  (List.range minutes.toNat).map (fun _ => (List.range bins.toNat).map (fun _ => 0))

/-- The body of `get_heatmap` past the symbol lookup, operating on the
per-symbol buffer contents. -/
def heatmapCore (buf : List WsEvent) (minutes bins now : ℤ) : Except Unit Grid :=
  let startMs := now - minutes * 60000
  let items := querySlice buf startMs
  if items.isEmpty then .ok ⟨[], [], []⟩
  else
    let lo := minPrice items
    let hi := maxPrice items
    if hi ≤ lo then .ok ⟨[], [], []⟩
    else
      match fillZ (zInit minutes bins) items startMs minutes bins
          (loPad lo hi) (binWOf lo hi bins) with
      | .ok z => .ok ⟨xAxis lo hi bins, yAxis startMs minutes, z⟩
      | .error _ => .error ()

/-- `get_heatmap(symbol, minutes, bins)` of ws_liq.py, with the clock
reading `_now_ms()` made an explicit argument `now`; `Except.error`
models the paths on which the Python function raises
(`if symbol not in _BUFS: return {...}` is the `none` branch). -/
def get_heatmap (st : Store) (symbol : String) (minutes bins now : ℤ) :
    Except Unit Grid :=
  match storeGet st (.jstr (pyUpper symbol)) with
  | none => .ok ⟨[], [], []⟩
  | some buf => heatmapCore buf minutes bins now

/-- Sum of all cells of a `z` matrix. -/
def zsum (z : List (List ℚ)) : ℚ := (z.map List.sum).sum

/-- The degenerate-range widening of the router heatmap in
routers/liq.py: `if pmin == pmax: pmin, pmax = pmin*0.99, pmax*1.01`. -/
def rtWiden (pmin pmax : ℚ) : ℚ × ℚ :=
  if pmin = pmax then (pmin * (99 / 100), pmax * (101 / 100)) else (pmin, pmax)

/-- One connection attempt of a reconnecting consumer: either the
connect itself fails, or it succeeds, `n` messages are received, and the
connection then drops with an error. -/
inductive Attempt where
  | connFail : Attempt
  | connDrop : ℕ → Attempt

/-- The waits slept by `_consume_force_orders` of ws_liq.py along a trace
of connection attempts, starting from backoff state `b`: on any failure
the current backoff is slept and then doubled with a cap of 30; a
successful connect resets the backoff to 1.0 before any message is
received, so the sleep after the subsequent drop is 1 and the next
backoff state is `min(1*2, 30) = 2`. -/
def waitsFrom (b : ℚ) : List Attempt → List ℚ
  | [] => []
  | .connFail :: rest => b :: waitsFrom (min (b * 2) 30) rest
  | .connDrop _ :: rest => 1 :: waitsFrom (min (1 * 2) 30) rest

/-- The wait sequence from the initial `backoff = 1.0`. -/
def waits (tr : List Attempt) : List ℚ := waitsFrom 1 tr

/-- Modelled from the spec: the backoff rule as the specification words
it — "wait `min(2^k, 30)` before the (k+1)-th retry, starting k at 0;
reset k to 0 immediately after a successful connect and at least one
successfully received message".  The counter is reset by a connection
only when it delivered at least one message. -/
def specWaitsFrom (k : ℕ) : List Attempt → List ℚ
  | [] => []
  | .connFail :: rest => min ((2 : ℚ) ^ k) 30 :: specWaitsFrom (k + 1) rest
  | .connDrop m :: rest =>
    let k2 := if 1 ≤ m then 0 else k
    min ((2 : ℚ) ^ k2) 30 :: specWaitsFrom (k2 + 1) rest

/-- The spec's wait sequence from `k = 0`. -/
def specWaits (tr : List Attempt) : List ℚ := specWaitsFrom 0 tr

section Helpers

theorem pyIdx_eq_of_bounds (n : ℕ) (i : ℤ) (h0 : 0 ≤ i) (h1 : i < (n : ℤ)) :
    pyIdx n i = some i.toNat := by
  have hn : pyNorm n i = i := if_neg (by omega)
  unfold pyIdx
  rw [hn]
  exact if_pos ⟨h0, h1⟩

theorem sum_set_getD_add (l : List ℚ) (i : ℕ) (v : ℚ) (h : i < l.length) :
    (l.set i (l.getD i 0 + v)).sum = l.sum + v := by
  induction l generalizing i with
  | nil => simp at h
  | cons a t ih =>
    cases i with
    | zero => simp [List.getD]; ring
    | succ j =>
      have hj : j < t.length := by simpa using h
      have hgd : (a :: t).getD (j + 1) 0 = t.getD j 0 := by simp [List.getD]
      rw [hgd]
      have hset : (a :: t).set (j + 1) (t.getD j 0 + v) = a :: t.set j (t.getD j 0 + v) := rfl
      rw [hset, List.sum_cons, List.sum_cons, ih j hj]
      ring

theorem zsum_set_row (z : List (List ℚ)) (j : ℕ) (r : List ℚ) (h : j < z.length) :
    zsum (z.set j r) = zsum z - (z.getD j []).sum + r.sum := by
  induction z generalizing j with
  | nil => simp at h
  | cons a t ih =>
    cases j with
    | zero => simp [zsum, List.getD]; ring
    | succ k =>
      have hk : k < t.length := by simpa using h
      have hgd : (a :: t).getD (k + 1) [] = t.getD k [] := by simp [List.getD]
      have hset : (a :: t).set (k + 1) r = a :: t.set k r := rfl
      rw [hset, hgd]
      simp only [zsum, List.map_cons, List.sum_cons] at *
      rw [ih k hk]
      ring

theorem mem_of_mem_set {α : Type} {z : List α} {j : ℕ} {r x : α}
    (h : x ∈ z.set j r) : x ∈ z ∨ x = r := by
  induction z generalizing j with
  | nil => simp at h
  | cons a t ih =>
    cases j with
    | zero =>
      rcases List.mem_cons.mp h with h1 | h1
      · right; exact h1
      · left; exact List.mem_cons_of_mem _ h1
    | succ k =>
      rcases List.mem_cons.mp h with h1 | h1
      · left; simp [h1]
      · rcases ih h1 with h2 | h2
        · left; exact List.mem_cons_of_mem _ h2
        · right; exact h2

theorem getD_mem_of_lt {α : Type} (z : List α) (j : ℕ) (d : α) (h : j < z.length) :
    z.getD j d ∈ z := by
  induction z generalizing j with
  | nil => simp at h
  | cons a t ih =>
    cases j with
    | zero => simp [List.getD]
    | succ k =>
      have : (a :: t).getD (k + 1) d = t.getD k d := by simp [List.getD]
      rw [this]
      exact List.mem_cons_of_mem _ (ih k (by simpa using h))

theorem yiOf_bounds (minutes startMs ts : ℤ) (hm : 1 ≤ minutes) :
    0 ≤ yiOf minutes startMs ts ∧ yiOf minutes startMs ts < minutes := by
  unfold yiOf
  constructor <;> omega

theorem xiOf_bounds (lo binW : ℚ) (bins : ℤ) (price : ℚ) (hb : 1 ≤ bins) :
    0 ≤ xiOf lo binW bins price ∧ xiOf lo binW bins price < bins := by
  unfold xiOf
  split
  · omega
  · split <;> omega

theorem bump_ok (z : List (List ℚ)) (yi xi : ℤ) (v : ℚ) (B : ℕ)
    (hy0 : 0 ≤ yi) (hy1 : yi < (z.length : ℤ))
    (hrow : ∀ r ∈ z, r.length = B)
    (hx0 : 0 ≤ xi) (hx1 : xi < (B : ℤ)) :
    ∃ z2, bump z yi xi v = some z2 ∧
      z2.length = z.length ∧ (∀ r ∈ z2, r.length = B) ∧
      zsum z2 = zsum z + v := by
  have hyn : yi.toNat < z.length := by omega
  have hrowmem : z.getD yi.toNat [] ∈ z := getD_mem_of_lt z yi.toNat [] hyn
  have hrlen : (z.getD yi.toNat []).length = B := hrow _ hrowmem
  have hxn : xi.toNat < (z.getD yi.toNat []).length := by omega
  refine ⟨z.set yi.toNat ((z.getD yi.toNat []).set xi.toNat
      ((z.getD yi.toNat []).getD xi.toNat 0 + v)), ?_, ?_, ?_, ?_⟩
  · unfold bump
    rw [pyIdx_eq_of_bounds _ _ hy0 hy1]
    simp only [Option.some_bind]
    rw [pyIdx_eq_of_bounds _ _ hx0 (by rw [hrlen]; exact hx1)]
    rfl
  · simp
  · intro r hr
    rcases mem_of_mem_set hr with h1 | h1
    · exact hrow _ h1
    · subst h1
      rw [List.length_set]
      exact hrlen
  · rw [zsum_set_row _ _ _ hyn, sum_set_getD_add _ _ _ hxn]
    ring

theorem fillZ_ok (items : List WsEvent) (z : List (List ℚ))
    (startMs minutes bins : ℤ) (lo binW : ℚ) (B : ℕ)
    (hm : 1 ≤ minutes) (hb : 1 ≤ bins)
    (hlen : (z.length : ℤ) = minutes) (hB : (B : ℤ) = bins)
    (hrow : ∀ r ∈ z, r.length = B) :
    ∃ z2, fillZ z items startMs minutes bins lo binW = .ok z2 ∧
      z2.length = z.length ∧
      zsum z2 = zsum z + (items.map WsEvent.notional).sum := by
  induction items generalizing z with
  | nil => exact ⟨z, rfl, rfl, by simp⟩
  | cons e rest ih =>
    obtain ⟨hy0, hy1⟩ := yiOf_bounds minutes startMs e.ts hm
    obtain ⟨hx0, hx1⟩ := xiOf_bounds lo binW bins e.price hb
    obtain ⟨z2, hz2, hlen2, hrow2, hsum2⟩ :=
      bump_ok z (yiOf minutes startMs e.ts) (xiOf lo binW bins e.price) e.notional B
        hy0 (by omega) hrow hx0 (by omega)
    obtain ⟨z3, hz3, hlen3, hsum3⟩ := ih z2 (by omega) hrow2
    refine ⟨z3, ?_, by omega, ?_⟩
    · unfold fillZ
      rw [hz2]
      exact hz3
    · rw [hsum3, hsum2]
      simp
      ring

end Helpers

section MoreHelpers

theorem dequeAppend_length_le (m : ℕ) (buf : List α) (e : α) :
    (dequeAppend m buf e).length ≤ m := by
  simp only [dequeAppend]
  split
  · simp only [List.length_drop]
    omega
  · next h =>
    omega

theorem dequeAppend_isSuffix (m : ℕ) (buf : List α) (e : α) :
    (dequeAppend m buf e).IsSuffix (buf ++ [e]) := by
  simp only [dequeAppend]
  split
  · exact List.drop_suffix _ _
  · exact List.suffix_refl _

theorem storeApp_inv (st : Store) (k : JVal) (e : WsEvent)
    (h : ∀ kv ∈ st, kv.2.length ≤ WS_MAXLEN) :
    ∀ kv ∈ storeApp st k e, kv.2.length ≤ WS_MAXLEN := by
  induction st with
  | nil =>
    intro kv hkv
    simp only [storeApp, List.mem_singleton] at hkv
    subst hkv
    simpa using dequeAppend_length_le WS_MAXLEN [] e
  | cons a rest ih =>
    intro kv hkv
    simp only [storeApp] at hkv
    by_cases hk : keyEq a.1 k
    · rw [if_pos hk] at hkv
      rcases List.mem_cons.mp hkv with h1 | h1
      · subst h1
        simpa using dequeAppend_length_le WS_MAXLEN a.2 e
      · exact h kv (List.mem_cons_of_mem _ h1)
    · rw [if_neg hk] at hkv
      rcases List.mem_cons.mp hkv with h1 | h1
      · subst h1
        exact h a (List.mem_cons_self _ _)
      · exact ih (fun kv2 hkv2 => h kv2 (List.mem_cons_of_mem _ hkv2)) kv h1

theorem wsConsumeMsg_inv (st : Store) (raw : Option JVal) (now : ℤ)
    (h : ∀ kv ∈ st, kv.2.length ≤ WS_MAXLEN) :
    ∀ kv ∈ wsConsumeMsg st raw now, kv.2.length ≤ WS_MAXLEN := by
  unfold wsConsumeMsg
  generalize (wsStepMsg raw now).1 = kes
  induction kes generalizing st with
  | nil => exact h
  | cons ke rest ih =>
    simp only [List.foldl_cons]
    exact ih _ (storeApp_inv st ke.1 ke.2 h)

theorem wsConsume_inv (msgs : List (Option JVal)) (now : ℤ) (st : Store)
    (h : ∀ kv ∈ st, kv.2.length ≤ WS_MAXLEN) :
    ∀ kv ∈ wsConsume msgs now st, kv.2.length ≤ WS_MAXLEN := by
  induction msgs generalizing st with
  | nil => exact h
  | cons m rest ih =>
    simp only [wsConsume, List.foldl_cons]
    exact ih _ (wsConsumeMsg_inv st m now h)

theorem rtConsume_length_le (msgs : List (Option JVal)) (now : ℤ) (buf : List RtEvent)
    (h : buf.length ≤ RT_MAXLEN) : (rtConsume msgs now buf).length ≤ RT_MAXLEN := by
  induction msgs generalizing buf with
  | nil => exact h
  | cons m rest ih =>
    simp only [rtConsume, List.foldl_cons]
    apply ih
    cases rtDecode m now with
    | none => exact h
    | some e => exact dequeAppend_length_le _ _ _

/-- The backoff variable of `_consume_force_orders` after a trace of
connection attempts, starting from state `b`. -/
def bAfter (b : ℚ) : List Attempt → ℚ
  | [] => b
  | .connFail :: rest => bAfter (min (b * 2) 30) rest
  | .connDrop _ :: rest => bAfter (min (1 * 2) 30) rest

theorem waitsFrom_append (b : ℚ) (l1 l2 : List Attempt) :
    waitsFrom b (l1 ++ l2) = waitsFrom b l1 ++ waitsFrom (bAfter b l1) l2 := by
  induction l1 generalizing b with
  | nil => rfl
  | cons a rest ih =>
    cases a with
    | connFail =>
      simp only [List.cons_append, waitsFrom, bAfter]
      exact congrArg _ (ih _)
    | connDrop m =>
      simp only [List.cons_append, waitsFrom, bAfter]
      exact congrArg _ (ih _)

theorem min_double_pow (j : ℕ) :
    min (min ((2 : ℚ) ^ j) 30 * 2) 30 = min ((2 : ℚ) ^ (j + 1)) 30 := by
  rcases le_total ((2 : ℚ) ^ j) 30 with h | h
  · rw [min_eq_left h, pow_succ]
  · have h2 : (30 : ℚ) ≤ 2 ^ (j + 1) := by
      calc (30 : ℚ) ≤ 2 ^ j := h
      _ ≤ 2 ^ (j + 1) := by
        apply pow_le_pow_right₀ (by norm_num)
        omega
    rw [min_eq_right h, min_eq_right h2]
    norm_num

theorem waitsFrom_replicate (k j : ℕ) :
    waitsFrom (min ((2 : ℚ) ^ j) 30) (List.replicate k .connFail) =
      (List.range k).map (fun i => min ((2 : ℚ) ^ (j + i)) 30) := by
  induction k generalizing j with
  | zero => rfl
  | succ n ih =>
    rw [List.replicate_succ, List.range_succ_eq_map]
    simp only [waitsFrom, List.map_cons, List.map_map, Nat.add_zero]
    congr 1
    rw [min_double_pow, ih (j + 1)]
    apply List.map_congr_left
    intro i _
    simp only [Function.comp_apply]
    congr 2
    omega

end MoreHelpers

section HeatmapLemmas

theorem zInit_length (minutes bins : ℤ) : (zInit minutes bins).length = minutes.toNat := by
  simp [zInit]

theorem zInit_rows (minutes bins : ℤ) :
    ∀ r ∈ zInit minutes bins, r.length = bins.toNat := by
  intro r hr
  simp only [zInit, List.mem_map] at hr
  obtain ⟨i, _, rfl⟩ := hr
  simp

theorem zInit_zsum (minutes bins : ℤ) : zsum (zInit minutes bins) = 0 := by
  simp only [zsum, zInit, List.map_map]
  apply List.sum_eq_zero
  intro x hx
  simp only [List.mem_map] at hx
  obtain ⟨i, _, rfl⟩ := hx
  simp only [Function.comp_apply]
  apply List.sum_eq_zero
  intro y hy
  simp only [List.mem_map] at hy
  obtain ⟨j, _, rfl⟩ := hy
  rfl

theorem heatmapCore_run (buf : List WsEvent) (minutes bins now : ℤ)
    (hm : 1 ≤ minutes) (hb : 1 ≤ bins)
    (hlt : minPrice (querySlice buf (now - minutes * 60000)) <
           maxPrice (querySlice buf (now - minutes * 60000))) :
    ∃ g, heatmapCore buf minutes bins now = .ok g ∧
      zsum g.z = ((querySlice buf (now - minutes * 60000)).map WsEvent.notional).sum := by
  have hne : (querySlice buf (now - minutes * 60000)).isEmpty = false := by
    cases hI : querySlice buf (now - minutes * 60000) with
    | nil =>
      rw [hI] at hlt
      norm_num [minPrice, maxPrice] at hlt
    | cons e es => rfl
  obtain ⟨z2, hz2, hlen2, hsum⟩ := fillZ_ok (querySlice buf (now - minutes * 60000))
      (zInit minutes bins) (now - minutes * 60000) minutes bins
      (loPad (minPrice (querySlice buf (now - minutes * 60000)))
             (maxPrice (querySlice buf (now - minutes * 60000))))
      (binWOf (minPrice (querySlice buf (now - minutes * 60000)))
              (maxPrice (querySlice buf (now - minutes * 60000))) bins)
      bins.toNat hm hb
      (by rw [zInit_length]; omega) (by omega) (zInit_rows minutes bins)
  refine ⟨⟨xAxis (minPrice (querySlice buf (now - minutes * 60000)))
              (maxPrice (querySlice buf (now - minutes * 60000))) bins,
           yAxis (now - minutes * 60000) minutes, z2⟩, ?_, ?_⟩
  · simp only [heatmapCore]
    rw [hne]
    simp only [Bool.false_eq_true, if_false]
    rw [if_neg (not_le.mpr hlt)]
    rw [hz2]
  · show zsum z2 = _
    rw [hsum, zInit_zsum, zero_add]

theorem heatmapCore_flat (buf : List WsEvent) (minutes bins now : ℤ)
    (hle : maxPrice (querySlice buf (now - minutes * 60000)) ≤
           minPrice (querySlice buf (now - minutes * 60000))) :
    heatmapCore buf minutes bins now = .ok ⟨[], [], []⟩ := by
  simp only [heatmapCore]
  cases hI : (querySlice buf (now - minutes * 60000)).isEmpty
  · rw [if_neg (by simp), if_pos hle]
  · rw [if_pos rfl]

theorem get_heatmap_total (st : Store) (symbol : String) (minutes bins now : ℤ)
    (hm : 1 ≤ minutes) (hb : 1 ≤ bins) :
    ∃ g, get_heatmap st symbol minutes bins now = .ok g := by
  cases hs : storeGet st (.jstr (pyUpper symbol)) with
  | none => exact ⟨⟨[], [], []⟩, by simp only [get_heatmap, hs]⟩
  | some buf =>
    rcases le_or_lt (maxPrice (querySlice buf (now - minutes * 60000)))
        (minPrice (querySlice buf (now - minutes * 60000))) with hle | hlt
    · exact ⟨⟨[], [], []⟩, by
        simp only [get_heatmap, hs]
        exact heatmapCore_flat buf minutes bins now hle⟩
    · obtain ⟨g, hg, _⟩ := heatmapCore_run buf minutes bins now hm hb hlt
      exact ⟨g, by simp only [get_heatmap, hs]; exact hg⟩

end HeatmapLemmas

section ConsumerLemmas

theorem rtConsume_skip (bads vs : List (Option JVal)) (now : ℤ) (buf : List RtEvent)
    (h : ∀ m ∈ bads, rtDecode m now = none) :
    rtConsume (bads ++ vs) now buf = rtConsume vs now buf := by
  induction bads with
  | nil => rfl
  | cons b rest ih =>
    simp only [List.cons_append, rtConsume, List.foldl_cons]
    rw [h b (List.mem_cons_self _ _)]
    exact ih (fun m hm => h m (List.mem_cons_of_mem _ hm))

theorem wsConsume_skip (bads vs : List (Option JVal)) (now : ℤ) (st : Store)
    (h : ∀ m ∈ bads, (wsStepMsg m now).1 = []) :
    wsConsume (bads ++ vs) now st = wsConsume vs now st := by
  induction bads with
  | nil => rfl
  | cons b rest ih =>
    simp only [List.cons_append, wsConsume, List.foldl_cons]
    have hb : wsConsumeMsg st b now = st := by
      unfold wsConsumeMsg
      rw [h b (List.mem_cons_self _ _)]
      rfl
    rw [hb]
    exact ih (fun m hm => h m (List.mem_cons_of_mem _ hm))

theorem waits_replicate (k : ℕ) :
    waits (List.replicate k .connFail) =
      (List.range k).map (fun i => min ((2 : ℚ) ^ i) 30) := by
  have h1 : (1 : ℚ) = min ((2 : ℚ) ^ 0) 30 := by norm_num
  unfold waits
  rw [h1, waitsFrom_replicate]
  simp

theorem waits_reset (pre : List Attempt) (m k : ℕ) :
    waits (pre ++ .connDrop m :: List.replicate k .connFail) =
      waits pre ++ 1 :: (List.range k).map (fun i => min ((2 : ℚ) ^ (1 + i)) 30) := by
  unfold waits
  rw [waitsFrom_append]
  congr 1
  show waitsFrom (bAfter 1 pre) (.connDrop m :: List.replicate k .connFail) = _
  simp only [waitsFrom]
  congr 1
  have h2 : min ((1 : ℚ) * 2) 30 = min ((2 : ℚ) ^ 1) 30 := by norm_num
  rw [h2, waitsFrom_replicate]

end ConsumerLemmas

theorem truncQ_intCast (t : ℤ) : truncQ ((t : ℚ)) = t := by
  unfold truncQ
  split
  · exact_mod_cast Int.floor_intCast t
  · rw [show -((t : ℚ)) = (((-t : ℤ)) : ℚ) by push_cast; ring, Int.floor_intCast]
    ring

/-- A single-event envelope `{"o": {...}}` as delivered by the feed. -/
def mkOrder (fields : List (String × JVal)) : JVal := .jobj [(("o"), .jobj fields)]


section EvalHelpers

theorem parseFloat_five : parseFloat ("5") = some 5 := rfl

theorem parseFloat_two : parseFloat ("2") = some 2 := rfl

theorem parseFloat_zeroDot : parseFloat ("0.0") = some 0 := by
  have h : parseFloat ("0.0") = some ((((0:ℕ)) : ℚ) + (((0:ℕ)) : ℚ) / 10 ^ (1:ℕ)) := rfl
  rw [h]
  norm_num

theorem pyFloat_five : pyFloat (.jstr ("5")) = .ok 5 := by
  simp only [pyFloat, parseFloat_five]

theorem pyFloat_two : pyFloat (.jstr ("2")) = .ok 2 := by
  simp only [pyFloat, parseFloat_two]

theorem pyFloat_zeroDot : pyFloat (.jstr ("0.0")) = .ok 0 := by
  simp only [pyFloat, parseFloat_zeroDot]

theorem pyInt_one : pyInt (.jnum 1) = .ok 1 := by
  norm_num [pyInt, truncQ]

theorem pyUpper_btc : pyUpper ("BTCUSDT") = ("BTCUSDT") := rfl

theorem bind_ok {α β : Type} (a : α) (f : α → Except Unit β) :
    (Except.ok a : Except Unit α) >>= f = f a := rfl

theorem pure_ok {α : Type} (a : α) : (pure a : Except Unit α) = .ok a := rfl

theorem rtDecode_eq (raw : Option JVal) (now : ℤ) (r : Option RtEvent)
    (h : rtDecodeE raw now = .ok r) : rtDecode raw now = r := by
  unfold rtDecode
  rw [h]

theorem rtDecodeE_c2msg :
    rtDecodeE (some (.jobj [(("data"), .jobj [(("o"), .jobj [(("s"), .jstr ("BTCUSDT")),
        (("p"), .jstr ("5")), (("q"), .jstr ("2")), (("T"), .jnum 1)])])])) 10000000000 =
      .ok (some ⟨1, ("BTCUSDT"), .jnull, 5, 2, 10⟩) := by
  simp only [rtDecodeE, jget, getField, truthy, pyFloat_five, pyFloat_two, pyInt_one,
    pyUpper_btc, bind_ok, pure_ok, String.reduceEq, reduceIte, bne_iff_ne, ne_eq,
    List.isEmpty_cons, Bool.not_false, Bool.not_true,
    show ((0:ℚ) < 5) = True from by norm_num, show ((0:ℚ) < 2) = True from by norm_num,
    show ((1:ℚ) = 0) = False from by norm_num]
  simp only [not_false_eq_true, ite_true, and_self, true_and, and_true,
    pyFloat_five, pyFloat_two, bind_ok, pure_ok,
    show ((0:ℚ) < 5) = True from by norm_num, show ((0:ℚ) < 2) = True from by norm_num]
  norm_num

end EvalHelpers

/-- Claim C1 counterexample — a window whose single stored event gives
`price_lo == price_hi` makes `get_heatmap` of ws_liq.py return the EMPTY
grid (`if hi <= lo: return {"x": [], "y": [], "z": []}`), not a
non-empty grid with a widened price range as the claim states. -/
theorem claim1_counterexample :
    get_heatmap [(.jstr ("X"), [⟨0, 50, 100, .jnull⟩])] ("X") 5 10 0 =
      .ok ⟨[], [], []⟩ := rfl

/-- Claim C1 (amended) — in the service heatmap (ws_liq.get_heatmap) a
window whose events all share one price returns the empty grid, with no
division by zero and no notional binned; only the router heatmap
(routers/liq.py) widens a degenerate range, to `[0.99*p, 1.01*p]`,
which is non-degenerate for every positive price. -/
theorem claim1_degenerate_range :
    (∀ (st : Store) (symbol : String) (minutes bins now : ℤ) (buf : List WsEvent),
       storeGet st (.jstr (pyUpper symbol)) = some buf →
       maxPrice (querySlice buf (now - minutes * 60000)) ≤
         minPrice (querySlice buf (now - minutes * 60000)) →
       get_heatmap st symbol minutes bins now = .ok ⟨[], [], []⟩) ∧
    (∀ p : ℚ, 0 < p → (rtWiden p p).1 < (rtWiden p p).2) := by
  constructor
  · intro st symbol minutes bins now buf hbuf hle
    simp only [get_heatmap, hbuf]
    exact heatmapCore_flat buf minutes bins now hle
  · intro p hp
    simp only [rtWiden, if_pos rfl]
    exact mul_lt_mul_of_pos_left (by norm_num) hp

/-- Claim C1 witness — the amended claim applied to a one-event
single-price window and to price 50. -/
theorem claim1_witness :
    (storeGet [(.jstr ("X"), [⟨0, 50, 100, .jnull⟩])]
        (.jstr (pyUpper ("X"))) = some [⟨0, 50, 100, .jnull⟩] ∧
     maxPrice (querySlice [⟨0, 50, 100, .jnull⟩] (0 - 5 * 60000)) ≤
       minPrice (querySlice [⟨0, 50, 100, .jnull⟩] (0 - 5 * 60000)) ∧
     get_heatmap [(.jstr ("X"), [⟨0, 50, 100, .jnull⟩])] ("X") 5 10 0 =
       .ok ⟨[], [], []⟩) ∧
    ((0 : ℚ) < 50 ∧ (rtWiden 50 50).1 < (rtWiden 50 50).2) :=
  ⟨⟨rfl, le_of_eq rfl,
    claim1_degenerate_range.1 _ _ 5 10 0 _ rfl (le_of_eq rfl)⟩,
   ⟨by norm_num, claim1_degenerate_range.2 50 (by norm_num)⟩⟩

/-- Claim C2 counterexample — the router consumer stores a valid print
whose timestamp is far older than the configured age bound
(`LIQ_BUFFER_SECS` = 3600 s); the store retains it, because no
age-based eviction exists in either implementation. -/
theorem claim2_counterexample_age :
    rtConsume [some (.jobj [(("data"), .jobj [(("o"), .jobj [(("s"), .jstr ("BTCUSDT")),
        (("p"), .jstr ("5")), (("q"), .jstr ("2")), (("T"), .jnum 1)])])])]
      10000000000 [] = [⟨1, ("BTCUSDT"), .jnull, 5, 2, 10⟩] ∧
    (1 : ℤ) < 10000000000 - BUFFER_SECS * 1000 := by
  constructor
  · simp only [rtConsume, List.foldl_cons, List.foldl_nil,
      rtDecode_eq _ _ _ rtDecodeE_c2msg, dequeAppend]
    norm_num [RT_MAXLEN]
  · norm_num [BUFFER_SECS]

/-- Claim C2 (amended) — after any sequence of appends the router buffer
holds at most `maxlen = 200000` events and each per-symbol service
deque at most `maxlen = 20000`; eviction removes events from the oldest
(left) end only, the result of an append being a suffix of the old
buffer plus the new event; there is no age-based eviction. -/
theorem claim2_bounded_store :
    (∀ (msgs : List (Option JVal)) (now : ℤ) (buf : List RtEvent),
       buf.length ≤ RT_MAXLEN → (rtConsume msgs now buf).length ≤ RT_MAXLEN) ∧
    (∀ (msgs : List (Option JVal)) (now : ℤ) (st : Store),
       (∀ kv ∈ st, kv.2.length ≤ WS_MAXLEN) →
       ∀ kv ∈ wsConsume msgs now st, kv.2.length ≤ WS_MAXLEN) ∧
    (∀ (m : ℕ) (buf : List RtEvent) (e : RtEvent),
       (dequeAppend m buf e).IsSuffix (buf ++ [e])) :=
  ⟨rtConsume_length_le, wsConsume_inv, fun m buf e => dequeAppend_isSuffix m buf e⟩

/-- Claim C2 witness — the amended claim applied to the empty buffers. -/
theorem claim2_witness :
    (([] : List RtEvent).length ≤ RT_MAXLEN ∧
       (rtConsume [] 0 []).length ≤ RT_MAXLEN) ∧
    ((∀ kv ∈ ([] : Store), kv.2.length ≤ WS_MAXLEN) ∧
       ∀ kv ∈ wsConsume [] 0 [], kv.2.length ≤ WS_MAXLEN) :=
  ⟨⟨by norm_num [RT_MAXLEN], claim2_bounded_store.1 [] 0 [] (by norm_num [RT_MAXLEN])⟩,
   ⟨by simp, claim2_bounded_store.2.1 [] 0 [] (by simp)⟩⟩

/-- Claim C3 counterexample — decoding CAN raise in the service consumer
of ws_liq.py: `float("abc")` on the average-price field raises, and so
does `json.loads` on a payload that is not valid JSON (modelled by the
`none` message); the raise aborts the connection, so the receive loop
does not simply continue. -/
theorem claim3_counterexample_decode_raises :
    wsStepMsg (some (mkOrder [(("s"), .jstr ("X")), (("ap"), .jstr ("abc"))])) 0 =
      ([], true) ∧
    wsStepMsg none 0 = ([], true) := ⟨rfl, rfl⟩

/-- Claim C3 (amended) — the router consumer never raises per message
(blanket `except: pass`), and in both consumers any number of malformed
messages that decode to zero events leave the store exactly as if they
had never been received, so subsequent valid events are stored and
queryable; in the service consumer a raising message aborts only the
connection, never the buffer. -/
theorem claim3_fault_isolation :
    (∀ (bads vs : List (Option JVal)) (now : ℤ) (buf : List RtEvent),
       (∀ m ∈ bads, rtDecode m now = none) →
       rtConsume (bads ++ vs) now buf = rtConsume vs now buf) ∧
    (∀ (bads vs : List (Option JVal)) (now : ℤ) (st : Store),
       (∀ m ∈ bads, (wsStepMsg m now).1 = []) →
       wsConsume (bads ++ vs) now st = wsConsume vs now st) :=
  ⟨rtConsume_skip, wsConsume_skip⟩

/-- Claim C3 witness — one malformed message (invalid JSON) injected
before a valid one does not change the resulting router buffer. -/
theorem claim3_witness :
    (∀ m ∈ [(none : Option JVal)], rtDecode m 7 = none) ∧
    rtConsume ([none] ++ [some (.jobj [(("data"), .jobj [(("o"),
        .jobj [(("s"), .jstr ("BTCUSDT")), (("p"), .jstr ("5")),
        (("q"), .jstr ("2")), (("T"), .jnum 1)])])])]) 7 [] =
      rtConsume [some (.jobj [(("data"), .jobj [(("o"),
        .jobj [(("s"), .jstr ("BTCUSDT")), (("p"), .jstr ("5")),
        (("q"), .jstr ("2")), (("T"), .jnum 1)])])])] 7 [] := by
  have h : ∀ m ∈ [(none : Option JVal)], rtDecode m 7 = none := by
    intro m hm
    rw [List.eq_of_mem_singleton hm]
    rfl
  exact ⟨h, claim3_fault_isolation.1 [none] _ 7 [] h⟩

/-- Claim C4 counterexample — the window slice keeps arrival order: two
stored events whose timestamps arrived out of order are returned as
`[5000, 1000]`, which is not ascending timestamp order. -/
theorem claim4_counterexample_order :
    (querySlice [⟨5000, 1, 1, .jnull⟩, ⟨1000, 1, 1, .jnull⟩] 0).map WsEvent.ts =
      [5000, 1000] ∧
    ¬ ((5000 : ℤ) ≤ 1000) := ⟨rfl, by norm_num⟩

/-- Claim C4 (amended) — the window slice returns exactly the stored
events with `start_ts ≤ timestamp_ms` (the upper bound `end_ts` is
never checked), in arrival order (a sublist of the buffer, not
re-sorted), and a never-seen symbol yields the empty grid rather than
an error. -/
theorem claim4_query_semantics :
    (∀ (buf : List WsEvent) (startMs : ℤ) (e : WsEvent),
       e ∈ querySlice buf startMs ↔ e ∈ buf ∧ startMs ≤ e.ts) ∧
    (∀ (buf : List WsEvent) (startMs : ℤ), (querySlice buf startMs).Sublist buf) ∧
    (∀ (st : Store) (symbol : String) (minutes bins now : ℤ),
       storeGet st (.jstr (pyUpper symbol)) = none →
       get_heatmap st symbol minutes bins now = .ok ⟨[], [], []⟩) := by
  refine ⟨?_, ?_, ?_⟩
  · intro buf s e
    simp [querySlice, List.mem_filter]
  · intro buf s
    exact List.filter_sublist _
  · intro st symbol minutes bins now h
    simp only [get_heatmap, h]

/-- Claim C4 witness — the amended claim applied to a never-seen symbol
on the empty store. -/
theorem claim4_witness :
    storeGet ([] : Store) (.jstr (pyUpper ("ABC"))) = none ∧
    get_heatmap [] ("ABC") 1 1 0 = .ok ⟨[], [], []⟩ :=
  ⟨rfl, claim4_query_semantics.2.2 [] ("ABC") 1 1 0 rfl⟩

/-- Claim C5 counterexample — after one connection failure followed by a
successful connect that drops before ANY message is received, the code
waits 1 (the backoff was reset by the connect alone), while the claim's
rule — reset only after a connect AND at least one received message —
prescribes `min(2^1, 30) = 2` for that retry. -/
theorem claim5_counterexample_reset :
    waits [.connFail, .connDrop 0] = [1, 1] ∧
    specWaits [.connFail, .connDrop 0] = [1, 2] ∧
    ([1, 1] : List ℚ) ≠ [1, 2] := by
  refine ⟨?_, ?_, by norm_num⟩
  · norm_num [waits, waitsFrom]
  · norm_num [specWaits, specWaitsFrom]

/-- Claim C5 (amended) — for k consecutive connection failures from the
initial state the service consumer waits `min(2^k, 30)` before the
(k+1)-th retry, but the exponent resets to its base immediately after a
successful connect, even one that delivered zero messages: after any
prefix of attempts, a dropped connection is followed by waits `1,
min(2^1,30), min(2^2,30), ...` for the subsequent consecutive
failures. -/
theorem claim5_backoff_sequence :
    (∀ k : ℕ, waits (List.replicate k .connFail) =
       (List.range k).map (fun i => min ((2 : ℚ) ^ i) 30)) ∧
    (∀ (pre : List Attempt) (m k : ℕ),
       waits (pre ++ .connDrop m :: List.replicate k .connFail) =
         waits pre ++ 1 :: (List.range k).map (fun i => min ((2 : ℚ) ^ (1 + i)) 30)) :=
  ⟨waits_replicate, waits_reset⟩

/-- Claim C6 counterexample — a window whose events all share one price
yields the empty grid, whose cell sum 0 differs from the window's
notional sum 100, so sum preservation fails on degenerate windows. -/
theorem claim6_counterexample_degenerate_sum :
    get_heatmap [(.jstr ("X"), [⟨0, 50, 100, .jnull⟩])] ("X") 3 7 0 =
      .ok ⟨[], [], []⟩ ∧
    zsum ([] : List (List ℚ)) = 0 ∧
    ((querySlice [⟨0, 50, 100, .jnull⟩] (0 - 3 * 60000)).map WsEvent.notional).sum = 100 ∧
    (0 : ℚ) ≠ 100 := by
  refine ⟨rfl, rfl, ?_, by norm_num⟩
  norm_num [querySlice, List.filter]

/-- Claim C6 (amended) — whenever the window spans at least two distinct
prices and `minutes ≥ 1`, `bins ≥ 1`, the heatmap succeeds and the sum
of all cells equals the sum of notional over the stored events with
`timestamp_ms ≥ now - minutes` (note: including any event with a
timestamp beyond `now`, since the upper bound is not enforced); the
arithmetic is exact over `ℚ`. -/
theorem claim6_sum_preservation (st : Store) (symbol : String) (minutes bins now : ℤ)
    (buf : List WsEvent)
    (hbuf : storeGet st (.jstr (pyUpper symbol)) = some buf)
    (hm : 1 ≤ minutes) (hb : 1 ≤ bins)
    (hlt : minPrice (querySlice buf (now - minutes * 60000)) <
           maxPrice (querySlice buf (now - minutes * 60000))) :
    ∃ g, get_heatmap st symbol minutes bins now = .ok g ∧
      zsum g.z = ((querySlice buf (now - minutes * 60000)).map WsEvent.notional).sum := by
  obtain ⟨g, hg, hs⟩ := heatmapCore_run buf minutes bins now hm hb hlt
  refine ⟨g, ?_, hs⟩
  simp only [get_heatmap, hbuf]
  exact hg

/-- Claim C6 witness — sum preservation applied to a concrete two-price
window. -/
theorem claim6_witness :
    minPrice (querySlice [⟨0, 5, 10, .jnull⟩, ⟨0, 7, 14, .jnull⟩] (0 - 1 * 60000)) <
      maxPrice (querySlice [⟨0, 5, 10, .jnull⟩, ⟨0, 7, 14, .jnull⟩] (0 - 1 * 60000)) ∧
    (∃ g, get_heatmap [(.jstr ("X"), [⟨0, 5, 10, .jnull⟩, ⟨0, 7, 14, .jnull⟩])]
        ("X") 1 1 0 = .ok g ∧
      zsum g.z = ((querySlice [⟨0, 5, 10, .jnull⟩, ⟨0, 7, 14, .jnull⟩]
        (0 - 1 * 60000)).map WsEvent.notional).sum) := by
  have hlt : minPrice (querySlice [⟨0, 5, 10, .jnull⟩, ⟨0, 7, 14, .jnull⟩] (0 - 1 * 60000)) <
      maxPrice (querySlice [⟨0, 5, 10, .jnull⟩, ⟨0, 7, 14, .jnull⟩] (0 - 1 * 60000)) := by
    show (5 : ℚ) < 7
    norm_num
  exact ⟨hlt, claim6_sum_preservation _ ("X") 1 1 0 _ rfl (le_refl 1) (le_refl 1) hlt⟩

/-- Claim C7 counterexample — two calls with identical stored events,
minutes and bins but different clock readings return different grids
(the window and the y axis move with the clock), so the heatmap is not
a function of (events, minutes, bins) alone. -/
theorem claim7_counterexample_clock :
    get_heatmap [(.jstr ("X"), [⟨0, 5, 10, .jnull⟩, ⟨0, 7, 14, .jnull⟩])] ("X") 1 1 0 =
      .ok ⟨[(249 : ℚ)/50], [-60000], [[24]]⟩ ∧
    get_heatmap [(.jstr ("X"), [⟨0, 5, 10, .jnull⟩, ⟨0, 7, 14, .jnull⟩])] ("X") 1 1 120000 =
      .ok ⟨[], [], []⟩ ∧
    (⟨[(249 : ℚ)/50], [-60000], [[24]]⟩ : Grid) ≠ ⟨[], [], []⟩ := by
  refine ⟨?_, rfl, by simp⟩
  show heatmapCore [⟨0, 5, 10, .jnull⟩, ⟨0, 7, 14, .jnull⟩] 1 1 0 =
    .ok ⟨[(249 : ℚ)/50], [-60000], [[24]]⟩
  norm_num [heatmapCore, querySlice, minPrice, maxPrice, zInit, xAxis, yAxis, fillZ, bump,
    pyIdx, pyNorm, yiOf, xiOf, loPad, hiPad, binWOf, List.filter, Int.fdiv,
    List.range_succ, List.range_zero, List.flatMap_cons, List.flatMap_nil]

/-- Claim C7 (amended) — with the clock reading included among the
inputs the heatmap is deterministic: equal arguments give equal grids,
and the result depends on the store only through the queried symbol's
buffer (no hidden state, no dependence on other symbols or call
order). -/
theorem claim7_determinism :
    (∀ (st : Store) (symbol : String) (minutes bins now : ℤ),
       get_heatmap st symbol minutes bins now = get_heatmap st symbol minutes bins now) ∧
    (∀ (st st2 : Store) (symbol : String) (minutes bins now : ℤ),
       storeGet st (.jstr (pyUpper symbol)) = storeGet st2 (.jstr (pyUpper symbol)) →
       get_heatmap st symbol minutes bins now = get_heatmap st2 symbol minutes bins now) := by
  refine ⟨fun _ _ _ _ _ => rfl, ?_⟩
  intro st st2 symbol minutes bins now h
  simp only [get_heatmap, h]

/-- Claim C7 witness — locality applied to two stores agreeing on the
queried symbol's buffer but differing elsewhere. -/
theorem claim7_witness :
    storeGet [(.jstr ("X"), [⟨0, 1, 1, .jnull⟩])] (.jstr (pyUpper ("X"))) =
      storeGet [(.jstr ("X"), [⟨0, 1, 1, .jnull⟩]), (.jstr ("Y"), [⟨5, 2, 2, .jnull⟩])]
        (.jstr (pyUpper ("X"))) ∧
    get_heatmap [(.jstr ("X"), [⟨0, 1, 1, .jnull⟩])] ("X") 1 1 0 =
      get_heatmap [(.jstr ("X"), [⟨0, 1, 1, .jnull⟩]), (.jstr ("Y"), [⟨5, 2, 2, .jnull⟩])]
        ("X") 1 1 0 :=
  ⟨rfl, claim7_determinism.2 _ _ ("X") 1 1 0 rfl⟩

/-- Claim C8 counterexample — the price 50 lies exactly on the internal
bucket boundary (after padding, `lo = 24.5`, `bin_w = 25.5`, boundary
`24.5 + 25.5 = 50`); the event at 50 is accumulated into the
HIGHER-indexed bucket 1 (grid `[[1, 2]]`), not the lower-indexed bucket
0 which the claim (`[[2, 1]]`) would give. -/
theorem claim8_counterexample_boundary :
    get_heatmap [(.jstr ("X"), [⟨0, 25, 1, .jnull⟩, ⟨0, 50, 1, .jnull⟩, ⟨0, 75, 1, .jnull⟩])]
      ("X") 1 2 0 = .ok ⟨[(49 : ℚ)/2, 50], [-60000], [[1, 2]]⟩ ∧
    ([[(1 : ℚ), 2]] : List (List ℚ)) ≠ [[2, 1]] := by
  refine ⟨?_, by norm_num⟩
  show heatmapCore [⟨0, 25, 1, .jnull⟩, ⟨0, 50, 1, .jnull⟩, ⟨0, 75, 1, .jnull⟩] 1 2 0 =
    .ok ⟨[(49 : ℚ)/2, 50], [-60000], [[1, 2]]⟩
  norm_num [heatmapCore, querySlice, minPrice, maxPrice, zInit, xAxis, yAxis, fillZ, bump,
    pyIdx, pyNorm, yiOf, xiOf, loPad, hiPad, binWOf, List.filter, Int.fdiv,
    List.range_succ, List.range_zero, List.flatMap_cons, List.flatMap_nil,
    List.replicate, List.set, show ((2:ℤ)).toNat = 2 from rfl]

/-- Claim C8 (amended) — with `minutes ≥ 1` and `bins ≥ 1` the time and
price bucket indices are clamped into `[0, count-1]`, so no event is
dropped and no access is out of range; under exact arithmetic a price
exactly on an internal bucket boundary (`lo + k*bin_w`, `1 ≤ k ≤
bins-1`) goes to the HIGHER-indexed bucket `k`, and a price at the
final upper boundary goes to the last bucket. -/
theorem claim8_index_clamping (minutes bins startMs ts : ℤ) (lo binW price : ℚ) (k : ℤ)
    (hm : 1 ≤ minutes) (hb : 1 ≤ bins) (hw : 0 < binW) (hk1 : 1 ≤ k) (hk2 : k ≤ bins - 1) :
    (0 ≤ yiOf minutes startMs ts ∧ yiOf minutes startMs ts < minutes) ∧
    (0 ≤ xiOf lo binW bins price ∧ xiOf lo binW bins price < bins) ∧
    xiOf lo binW bins (lo + (k : ℚ) * binW) = k ∧
    xiOf lo binW bins (lo + (bins : ℚ) * binW) = bins - 1 := by
  refine ⟨yiOf_bounds minutes startMs ts hm, xiOf_bounds lo binW bins price hb, ?_, ?_⟩
  · unfold xiOf
    rw [add_sub_cancel_left, mul_div_assoc, div_self (ne_of_gt hw), mul_one, Int.floor_intCast]
    rw [if_neg (by omega), if_neg (by omega)]
  · unfold xiOf
    rw [add_sub_cancel_left, mul_div_assoc, div_self (ne_of_gt hw), mul_one, Int.floor_intCast]
    rw [if_neg (by omega), if_pos (le_refl bins)]

/-- Claim C8 witness — the clamping and boundary facts applied at
`minutes = 1`, `bins = 2`, `lo = 0`, `bin_w = 1`, `k = 1`. -/
theorem claim8_witness :
    ((1 : ℤ) ≤ 1 ∧ (1 : ℤ) ≤ 2 ∧ (0 : ℚ) < 1 ∧ (1 : ℤ) ≤ 1 ∧ (1 : ℤ) ≤ 2 - 1) ∧
    ((0 ≤ yiOf 1 0 0 ∧ yiOf 1 0 0 < 1) ∧
     (0 ≤ xiOf 0 1 2 0 ∧ xiOf 0 1 2 0 < 2) ∧
     xiOf 0 1 2 (0 + ((1 : ℤ) : ℚ) * 1) = 1 ∧
     xiOf 0 1 2 (0 + ((2 : ℤ) : ℚ) * 1) = 2 - 1) :=
  ⟨⟨le_refl 1, by norm_num, by norm_num, le_refl 1, by norm_num⟩,
   claim8_index_clamping 1 2 0 0 0 1 0 1 (le_refl 1) (by norm_num) (by norm_num)
     (le_refl 1) (by norm_num)⟩

/-- Claim C9 counterexample — with `bins = 0` and a non-degenerate
two-price window, `get_heatmap` raises an `IndexError`: every row of
`z` is empty, yet the clamp sends the price index to `bins - 1 = -1`
and `z[yi][-1]` on an empty row raises; the result is an error, not an
empty grid. -/
theorem claim9_counterexample_bins_zero :
    get_heatmap [(.jstr ("X"), [⟨0, 25, 1, .jnull⟩, ⟨0, 75, 1, .jnull⟩])] ("X") 1 0 0 =
      .error () := by
  show heatmapCore [⟨0, 25, 1, .jnull⟩, ⟨0, 75, 1, .jnull⟩] 1 0 0 = .error ()
  norm_num [heatmapCore, querySlice, minPrice, maxPrice, zInit, xAxis, yAxis, fillZ, bump,
    pyIdx, pyNorm, yiOf, xiOf, loPad, hiPad, binWOf, List.filter, Int.fdiv,
    List.range_succ, List.range_zero, List.flatMap_cons, List.flatMap_nil,
    List.replicate, List.set]

/-- Claim C9 (amended) — for every store, symbol and clock reading, and
all `minutes ≥ 1` and `bins ≥ 1`, the heatmap never errors: it returns
a grid, and absence of data is the empty grid `{x: [], y: [], z: []}`;
for `bins ≤ 0` (or `minutes ≤ 0`) with a non-degenerate window it
raises an index error instead. -/
theorem claim9_no_error (st : Store) (symbol : String) (minutes bins now : ℤ)
    (hm : 1 ≤ minutes) (hb : 1 ≤ bins) :
    ∃ g, get_heatmap st symbol minutes bins now = .ok g :=
  get_heatmap_total st symbol minutes bins now hm hb

/-- Claim C9 witness — totality applied at `minutes = bins = 1` on the
empty store. -/
theorem claim9_witness :
    ((1 : ℤ) ≤ 1) ∧ ∃ g, get_heatmap [] ("A") 1 1 0 = .ok g :=
  ⟨le_refl 1, claim9_no_error [] ("A") 1 1 0 (le_refl 1) (le_refl 1)⟩

/-- Claim C10 counterexample — a message whose average-price field is
the string "0.0" (zero in value, but truthy and different from the
literal "0") is NOT routed to the order-price field: the code takes
`float("0.0") = 0` as the price and filters the event, producing zero
events where the claim prescribes one event with price 5. -/
theorem claim10_counterexample_ap_zero_string :
    wsStepMsg (some (mkOrder [(("s"), .jstr ("X")), (("ap"), .jstr ("0.0")),
      (("p"), .jstr ("5")), (("q"), .jstr ("2")), (("T"), .jnum 1000)])) 99 =
      ([], false) ∧
    parseFloat ("0.0") = some 0 ∧ parseFloat ("5") = some 5 := by
  refine ⟨?_, parseFloat_zeroDot, parseFloat_five⟩
  simp only [wsStepMsg, mkOrder, wsDecodeList, wsDecodeOne, jget, getField, truthy, neStrZero,
    pyFloat_five, pyFloat_two, pyFloat_zeroDot, isHashable,
    bind_ok, pure_ok, String.reduceEq, reduceIte, bne_iff_ne, ne_eq, Bool.and_eq_true,
    List.isEmpty_cons, Bool.not_false, Bool.not_true,
    not_false_eq_true, ite_true, true_and, and_true, and_self, true_or,
    show ((0:ℚ) ≤ 0) = True from by norm_num,
    show ((1000:ℚ) = 0) = False from by norm_num,
    show pyInt (.jnum 1000) = .ok 1000 from by norm_num [pyInt, truncQ]]

/-- Claim C10 (amended) — field fallbacks of the service decoder: a
NUMERIC average price is used when non-zero, the order price is used
when the average price is zero, the event time comes from the order
field `T`, falls back to the envelope field `E`, and falls back to the
receipt time when both are absent; the quantity is read from the single
field `q` (there is no fallback quantity field name), and a STRING
average price is compared against the literal "0", not against the
value zero (see the counterexample). -/
theorem claim10_field_extraction (a b c : ℚ) (t u now : ℤ)
    (ha : 0 < a) (hb : 0 < b) (hc : 0 < c) (ht : 0 < t) (hu : 0 < u) :
    (wsStepMsg (some (mkOrder [(("s"), .jstr ("X")), (("ap"), .jnum a),
       (("p"), .jnum b), (("q"), .jnum c), (("T"), .jnum ((t : ℤ) : ℚ))])) now =
       ([(.jstr ("X"), ⟨t, a, a * c, .jstr ("UNKNOWN")⟩)], false)) ∧
    (wsStepMsg (some (mkOrder [(("s"), .jstr ("X")), (("ap"), .jnum 0),
       (("p"), .jnum b), (("q"), .jnum c), (("T"), .jnum ((t : ℤ) : ℚ))])) now =
       ([(.jstr ("X"), ⟨t, b, b * c, .jstr ("UNKNOWN")⟩)], false)) ∧
    (wsStepMsg (some (.jobj [(("o"), .jobj [(("s"), .jstr ("X")),
       (("p"), .jnum b), (("q"), .jnum c)]), (("E"), .jnum ((u : ℤ) : ℚ))])) now =
       ([(.jstr ("X"), ⟨u, b, b * c, .jstr ("UNKNOWN")⟩)], false)) ∧
    (wsStepMsg (some (mkOrder [(("s"), .jstr ("X")),
       (("p"), .jnum b), (("q"), .jnum c)])) now =
       ([(.jstr ("X"), ⟨now, b, b * c, .jstr ("UNKNOWN")⟩)], false)) := by
  have ha' : a ≠ 0 := ne_of_gt ha
  have hb' : b ≠ 0 := ne_of_gt hb
  have hc' : c ≠ 0 := ne_of_gt hc
  have ht' : ((t : ℚ)) ≠ 0 := by exact_mod_cast ne_of_gt ht
  have hu' : ((u : ℚ)) ≠ 0 := by exact_mod_cast ne_of_gt hu
  refine ⟨?_, ?_, ?_, ?_⟩
  · simp only [wsStepMsg, mkOrder, wsDecodeList, wsDecodeOne, jget, getField, truthy,
      neStrZero, pyFloat, pyInt, isHashable, bind, Except.bind, pure, Except.pure,
      if_true, if_false, bne_iff_ne, ne_eq, ha', hc', ht', not_false_eq_true,
      List.isEmpty_cons, Bool.not_false, Bool.not_true,
      String.reduceEq, reduceIte, truncQ_intCast]
    rw [if_pos (show (a != 0 && true) = true by simp [ha'])]
    rw [if_neg (show ¬(a ≤ 0 ∨ c ≤ 0) by push_neg; exact ⟨ha, hc⟩)]
  · simp only [wsStepMsg, mkOrder, wsDecodeList, wsDecodeOne, jget, getField, truthy,
      neStrZero, pyFloat, pyInt, isHashable, bind, Except.bind, pure, Except.pure,
      if_true, if_false, bne_iff_ne, ne_eq, hb', hc', ht', not_false_eq_true,
      List.isEmpty_cons, Bool.not_false, Bool.not_true,
      String.reduceEq, reduceIte, truncQ_intCast, bne_self_eq_false, Bool.false_and]
    rw [if_neg (show ¬(b ≤ 0 ∨ c ≤ 0) by push_neg; exact ⟨hb, hc⟩)]
    rfl
  · simp only [wsStepMsg, wsDecodeList, wsDecodeOne, jget, getField, truthy,
      neStrZero, pyFloat, pyInt, isHashable, bind, Except.bind, pure, Except.pure,
      if_true, if_false, bne_iff_ne, ne_eq, hb', hc', hu', not_false_eq_true,
      List.isEmpty_cons, Bool.not_false, Bool.not_true,
      String.reduceEq, reduceIte, truncQ_intCast]
    rw [if_neg (show ¬(b ≤ 0 ∨ c ≤ 0) by push_neg; exact ⟨hb, hc⟩)]
    rfl
  · simp only [wsStepMsg, mkOrder, wsDecodeList, wsDecodeOne, jget, getField, truthy,
      neStrZero, pyFloat, pyInt, isHashable, bind, Except.bind, pure, Except.pure,
      if_true, if_false, bne_iff_ne, ne_eq, hb', hc', not_false_eq_true,
      List.isEmpty_cons, Bool.not_false, Bool.not_true,
      String.reduceEq, reduceIte, truncQ_intCast]
    rw [if_neg (show ¬(b ≤ 0 ∨ c ≤ 0) by push_neg; exact ⟨hb, hc⟩)]
    rfl

/-- Claim C10 witness — the field-extraction rules applied at
`ap = 6`, `p = 5`, `q = 2`, `T = 1000`. -/
theorem claim10_witness :
    ((0 : ℚ) < 6 ∧ (0 : ℚ) < 5 ∧ (0 : ℚ) < 2 ∧ (0 : ℤ) < 1000 ∧ (0 : ℤ) < 2000) ∧
    wsStepMsg (some (mkOrder [(("s"), .jstr ("X")), (("ap"), .jnum 6),
      (("p"), .jnum 5), (("q"), .jnum 2), (("T"), .jnum (((1000 : ℤ)) : ℚ))])) 99 =
      ([(.jstr ("X"), ⟨1000, 6, 6 * 2, .jstr ("UNKNOWN")⟩)], false) :=
  ⟨⟨by norm_num, by norm_num, by norm_num, by norm_num, by norm_num⟩,
   (claim10_field_extraction 6 5 2 1000 2000 99 (by norm_num) (by norm_num) (by norm_num)
     (by norm_num) (by norm_num)).1⟩
